import Mathlib

/- Shallow embedding of the caption-retrieval and conversation-memory
   subsystem of the yt-qa-backend repository, translated from
   src/services/youtube_transcript.py and
   src/services/conversation_memory.py. -/

/-- Whitespace test used by the Python str.strip and str.split methods,
restricted to the ASCII whitespace characters that occur in caption
payloads. -/
def pyWs (c : Char) : Bool :=
  c == ' ' || c == '\t' || c == '\n' || c == '\x0b' || c == '\x0c' || c == '\r'

/-- Models the Python str.strip method on a character list: remove leading
and trailing whitespace. -/
def pyStrip (l : List Char) : List Char :=
  ((l.dropWhile pyWs).reverse.dropWhile pyWs).reverse

/-- Models the Python str.strip method on strings. -/
def pyStripS (s : String) : String := ⟨pyStrip s.data⟩

/-- Helper for pySplitWs carrying the reversed current token. -/
def pySplitWsAux : List Char → List Char → List (List Char)
  | [], acc => if acc.isEmpty then [] else [acc.reverse]
  | c :: cs, acc =>
    if pyWs c then
      if acc.isEmpty then pySplitWsAux cs [] else acc.reverse :: pySplitWsAux cs []
    else pySplitWsAux cs (c :: acc)

/-- Models the Python str.split method with no argument: split on runs of
whitespace, returning no empty tokens. -/
def pySplitWs (l : List Char) : List (List Char) := pySplitWsAux l []

/-- Models the Python str.split method with separator newline: exact
splitting, keeping empty pieces. -/
def splitNl : List Char → List (List Char)
  | [] => [[]]
  | c :: cs =>
    if c = '\n' then [] :: splitNl cs
    else
      match splitNl cs with
      | h :: t => (c :: h) :: t
      | [] => [[c]]

/-- Models the Python expression joining a list of strings with a single
space separator. -/
def joinSp : List (List Char) → List Char
  | [] => []
  | [l] => l
  | l :: ls => l ++ ' ' :: joinSp ls

/-- Substring containment test, modelling the Python in operator on
strings. -/
def containsSub (pat : List Char) : List Char → Bool
  | [] => pat.isEmpty
  | c :: cs => pat.isPrefixOf (c :: cs) || containsSub pat cs

/-- Models the Python str.isdigit method for the ASCII digits that occur in
caption cue indexes. -/
def isdigitL (l : List Char) : Bool := !l.isEmpty && l.all Char.isDigit

/-- Models the Python html.unescape function, restricted to the entity
forms that occur in YouTube caption payloads: the named references amp,
lt, gt, quot and the numeric references for the apostrophe. Text without
an ampersand passes through unchanged, exactly as in the library
function. -/
def unescapeAux : Nat → List Char → List Char
  | 0, l => l
  | _ + 1, [] => []
  | fuel + 1, c :: cs =>
    if c = '&' then
      if ("amp;".data).isPrefixOf cs then '&' :: unescapeAux fuel (cs.drop 4)
      else if ("lt;".data).isPrefixOf cs then '<' :: unescapeAux fuel (cs.drop 3)
      else if ("gt;".data).isPrefixOf cs then '>' :: unescapeAux fuel (cs.drop 3)
      else if ("quot;".data).isPrefixOf cs then '"' :: unescapeAux fuel (cs.drop 5)
      else if ("#39;".data).isPrefixOf cs then Char.ofNat 39 :: unescapeAux fuel (cs.drop 4)
      else if ("#x27;".data).isPrefixOf cs then Char.ofNat 39 :: unescapeAux fuel (cs.drop 5)
      else '&' :: unescapeAux fuel cs
    else c :: unescapeAux fuel cs

/-- Entry point of the unescape model; the fuel argument of the helper
only serves termination and is never exhausted when initialised with the
length of the list. -/
def unescapeL (l : List Char) : List Char := unescapeAux l.length l

/-- Finds the first occurrence of the nonempty literal pat in a character
list, returning the part before it and the part after it. This models the
leftmost-match search of the re module for a literal pattern, and the lazy
group of the caption element regexes. -/
def splitFirst (pat : List Char) : List Char → Option (List Char × List Char)
  | [] => none
  | c :: cs =>
    if pat.isPrefixOf (c :: cs) then some ([], (c :: cs).drop pat.length)
    else
      match splitFirst pat cs with
      | some (b, a) => some (c :: b, a)
      | none => none

/-- Consumes the regex fragment matching zero or more characters other
than a closing angle bracket followed by a closing angle bracket, and
returns the remainder. -/
def afterOpenTag : List Char → Option (List Char)
  | [] => none
  | c :: cs => if c = '>' then some cs else afterOpenTag cs

/-- Models re.findall for a pattern of the shape openLit [^>]* > (.*?)
closeLit with the DOTALL flag: scan left to right; at each position where
openLit is a literal prefix, complete the opening tag at the next closing
angle bracket, then capture lazily up to the first occurrence of closeLit;
matches are non-overlapping and a failed position advances by one
character. The fuel argument only serves termination; every call site
passes the length of the scanned list, which the recursion never
exhausts since each step consumes at least one character. -/
def findAllAux (openLit closeLit : List Char) : Nat → List Char → List (List Char)
  | 0, _ => []
  | _ + 1, [] => []
  | fuel + 1, c :: cs =>
    if openLit.isPrefixOf (c :: cs) then
      match afterOpenTag ((c :: cs).drop openLit.length) with
      | some rest =>
        match splitFirst closeLit rest with
        | some (body, after) => body :: findAllAux openLit closeLit fuel after
        | none => findAllAux openLit closeLit fuel cs
      | none => findAllAux openLit closeLit fuel cs
    else findAllAux openLit closeLit fuel cs

/-- All bodies of text elements, as matched by pattern 1 of
_parse_transcript_xml. -/
def findTexts (l : List Char) : List (List Char) :=
  findAllAux ("<text".data) ("</text>".data) l.length l

/-- All bodies of p elements, as matched by pattern 2 of
_parse_transcript_xml and by the pattern of _parse_ttml. -/
def findPs (l : List Char) : List (List Char) :=
  findAllAux ("<p".data) ("</p>".data) l.length l

/-- Helper for stripTags; the fuel argument only serves termination and is
never exhausted when initialised with the length of the list. Models
re.sub replacing every match of an opening angle bracket, one or more
characters other than a closing angle bracket, and a closing angle
bracket, by a single space. -/
def stripTagsAux : Nat → List Char → List Char
  | 0, l => l
  | _ + 1, [] => []
  | fuel + 1, c :: cs =>
    if c = '<' then
      match splitFirst ['>'] cs with
      | some (inside, after) =>
        if inside.isEmpty then c :: stripTagsAux fuel cs
        else ' ' :: stripTagsAux fuel after
      | none => c :: stripTagsAux fuel cs
    else c :: stripTagsAux fuel cs

/-- Models the tag-stripping re.sub call of pattern 3 of
_parse_transcript_xml. -/
def stripTags (l : List Char) : List Char := stripTagsAux l.length l

/-- The per-fragment cleanup applied to regex matches in
_parse_transcript_xml and _parse_ttml: keep the fragments whose stripped
form is nonempty, and entity-decode the stripped form of each. -/
def cleanFrags (ms : List (List Char)) : List (List Char) :=
  (ms.filter (fun m => !(pyStrip m).isEmpty)).map (fun m => unescapeL (pyStrip m))

/-- Translation of YouTubeTranscriptService._parse_transcript_xml: collect
the bodies of all text elements and of all p elements, clean each; if both
collections contribute nothing, strip all tags, entity-decode, and
token-split on whitespace; join the resulting pieces with single
spaces. -/
def parseXml (s : String) : String :=
  let lines := cleanFrags (findTexts s.data) ++ cleanFrags (findPs s.data)
  if lines.isEmpty then
    ⟨joinSp (((pySplitWs (unescapeL (stripTags s.data))).map pyStrip).filter
      (fun l => !l.isEmpty))⟩
  else ⟨joinSp lines⟩

/-- The skip test of the _parse_vtt loop: a stripped line is dropped when
it is empty, starts the header, contains the cue time-range arrow, is
purely numeric, or begins a NOTE or STYLE block. -/
def vttKeep (l : List Char) : Bool :=
  !(l.isEmpty || ("WEBVTT".data).isPrefixOf l || containsSub ("-->".data) l ||
    isdigitL l || ("NOTE".data).isPrefixOf l || ("STYLE".data).isPrefixOf l)

/-- Translation of YouTubeTranscriptService._parse_vtt: split on newlines,
strip each line, drop header, timestamp, numeric and block lines, join the
rest with single spaces. -/
def parseVtt (s : String) : String :=
  ⟨joinSp (((splitNl s.data).map pyStrip).filter vttKeep)⟩

/-- Translation of YouTubeTranscriptService._parse_ttml: collect the
bodies of all p elements, clean each, join with single spaces. -/
def parseTtml (s : String) : String :=
  ⟨joinSp (cleanFrags (findPs s.data))⟩

/-- The format list tried by get_transcript. -/
def formats : List String := ["srv3", "srv1", "srv2", "vtt", "ttml"]

/-- The format dispatch of get_transcript lines 52 to 57 and 84 to 89: the
srv formats go through the XML routine, vtt and ttml through their own
routines. -/
def parseBy (fmt : String) (body : String) : String :=
  if fmt = "srv3" ∨ fmt = "srv1" ∨ fmt = "srv2" then parseXml body
  else if fmt = "vtt" then parseVtt body
  else parseTtml body

/-- Absence of markup delimiters and of the ampersand that introduces an
entity escape, as a decidable test on a fragment. -/
def noMarkB (l : List Char) : Bool := decide (¬('<' ∈ l ∨ '>' ∈ l ∨ '&' ∈ l))

/-- Outcome of one HTTP attempt against the caption endpoint: either a
response with a status code and body text, or a raised transport
exception whose string the code records as last_error. -/
inductive AttemptResult where
  | ok (status : Nat) (body : String)
  | exn (msg : String)

/-- The caption endpoint as seen by get_transcript: a response for every
combination of optional language parameter and format parameter. -/
abbrev Endpoint := Option String → String → AttemptResult

/-- The observable result of get_transcript: the returned triple of
success flag, transcript text and error message, together with the list
of endpoint requests issued, each as a format and optional language. -/
structure FetchTrace where
  success : Bool
  text : Option String
  error : Option String
  attempts : List (String × Option String)
deriving DecidableEq

/-- Intermediate outcome of one of the two attempt loops: either an early
success return, or fall-through carrying the transcript_text and
last_error variables; both carry the requests issued. -/
inductive LoopOut where
  | found (text : String) (attempts : List (String × Option String))
  | through (tt : Option String) (le : Option String) (attempts : List (String × Option String))

/-- Records one more issued request in front of a loop outcome. -/
def LoopOut.consA (p : String × Option String) : LoopOut → LoopOut
  | .found t as => .found t (p :: as)
  | .through tt le as => .through tt le (p :: as)

/-- The requests issued by a loop outcome. -/
def LoopOut.attemptsList : LoopOut → List (String × Option String)
  | .found _ as => as
  | .through _ _ as => as

/-- The language loop of get_transcript lines 33 to 69: for each format
and language pair issue one request; on an exception record last_error
and continue; on a 200 response with a body whose strip is nonempty,
parse it, return it if its strip is nonempty, else store it in
transcript_text and continue; any other response is skipped. -/
def runLangLoop (ep : Endpoint) : List (String × Option String) → Option String → Option String → LoopOut
  | [], tt, le => .through tt le []
  | (fmt, lang) :: rest, tt, le =>
    LoopOut.consA (fmt, lang) (
      match ep lang fmt with
      | .exn msg => runLangLoop ep rest tt (some msg)
      | .ok status body =>
        if status = 200 ∧ body ≠ "" ∧ pyStripS body ≠ "" then
          let parsed := parseBy fmt body
          if parsed ≠ "" ∧ pyStripS parsed ≠ "" then .found parsed []
          else runLangLoop ep rest (some parsed) le
        else runLangLoop ep rest tt le)

/-- The auto-detect loop of get_transcript lines 73 to 96: same shape as
the language loop but without the language parameter, and accepting any
200 response with a nonempty body. -/
def runAutoLoop (ep : Endpoint) : List (String × Option String) → Option String → Option String → LoopOut
  | [], tt, le => .through tt le []
  | (fmt, lang) :: rest, tt, le =>
    LoopOut.consA (fmt, lang) (
      match ep lang fmt with
      | .exn msg => runAutoLoop ep rest tt (some msg)
      | .ok status body =>
        if status = 200 ∧ body ≠ "" then
          let parsed := parseBy fmt body
          if parsed ≠ "" ∧ pyStripS parsed ≠ "" then .found parsed []
          else runAutoLoop ep rest (some parsed) le
        else runAutoLoop ep rest tt le)

/-- Python truthiness of the transcript_text variable: false when it is
unset or the empty string. -/
def ttFalsy : Option String → Bool
  | none => true
  | some s => s == ""

/-- The failure message built at line 99, including the Python truthiness
test on last_error inside the f-string. -/
def noCaptionsMsg (le : Option String) : String :=
  "No captions available for this video. " ++
    (match le with
     | some e => if e = "" then "Response was empty or could not be parsed." else e
     | none => "Response was empty or could not be parsed.")

/-- The final return of get_transcript lines 98 to 102: failure when
transcript_text is unset, empty or whitespace only, success with it
otherwise. -/
def finalizeResult (tt le : Option String) (as : List (String × Option String)) : FetchTrace :=
  match tt with
  | none => ⟨false, none, some (noCaptionsMsg le), as⟩
  | some s =>
    if s = "" ∨ pyStripS s = "" then ⟨false, none, some (noCaptionsMsg le), as⟩
    else ⟨true, some s, none, as⟩

/-- The default language priority list of get_transcript line 21. -/
def defaultLanguages : List String := ["en", "en-US", "en-GB"]

/-- The format-major iteration order of the nested loops at lines 33 and
34: for each format, every language. -/
def langFmtPairs (langs : List String) : List (String × Option String) :=
  formats.flatMap (fun fmt => langs.map (fun l => (fmt, some l)))

/-- The auto-detect attempts of line 73: every format, no language. -/
def autoFmtPairs : List (String × Option String) :=
  formats.map (fun fmt => (fmt, none))

/-- Translation of YouTubeTranscriptService.get_transcript on its normal
path: run the language loop; if transcript_text is still falsy run the
auto-detect loop; finalize. A None languages argument selects the default
list, exactly as the is-None test at line 20 does. -/
def get_transcriptT (ep : Endpoint) (languages : Option (List String)) : FetchTrace :=
  let langs := match languages with | none => defaultLanguages | some ls => ls
  match runLangLoop ep (langFmtPairs langs) none none with
  | .found t as => ⟨true, some t, none, as⟩
  | .through tt le as =>
    if ttFalsy tt then
      match runAutoLoop ep autoFmtPairs tt le with
      | .found t as2 => ⟨true, some t, none, as ++ as2⟩
      | .through tt2 le2 as2 => finalizeResult tt2 le2 (as ++ as2)
    else finalizeResult tt le as

/-- A run of get_transcript: either the normal path driven by an endpoint,
or one of the two outer exception handlers of lines 104 to 109, which fire
outside the per-attempt try blocks. -/
inductive FetchRun where
  | normal (ep : Endpoint)
  | outerTimeout
  | outerError (msg : String)

/-- Translation of YouTubeTranscriptService.get_transcript including the
outer exception handlers. -/
def get_transcriptFull : FetchRun → Option (List String) → FetchTrace
  | .normal ep, langs => get_transcriptT ep langs
  | .outerTimeout, _ => ⟨false, none, some "Request timeout while fetching transcript", []⟩
  | .outerError m, _ => ⟨false, none, some ("Error fetching transcript: " ++ m), []⟩

/-- An endpoint answering 429 to every request, for the rate-limit
scenario of claim C1. -/
def ep429 : Endpoint := fun _ _ => .ok 429 ""

/-- An endpoint answering 404 to every request, for the attempt-count
scenario of claim C2. -/
def ep404 : Endpoint := fun _ _ => .ok 404 ""

/-- An endpoint failing the first default language and serving a
well-formed srv3 body for the second, for the second scenario of claim
C2. -/
def epSecondLang : Endpoint := fun lang fmt =>
  if fmt = "srv3" ∧ lang = some "en-US" then .ok 200 "<text>Hello world</text>"
  else .ok 404 ""

/-- The result shape asserted by claim C8: on success a nonempty text and
no error, on failure no text and an error message. -/
def resultWellFormed (r : FetchTrace) : Prop :=
  if r.success then ((∃ s, r.text = some s ∧ s ≠ "") ∧ r.error = none)
  else (r.text = none ∧ ∃ m, r.error = some m)

/-- One stored question and answer pair. The Python code stores the
creation time as an ISO timestamp string; the embedding stores the
abstract time value itself. -/
structure Exchange where
  question : String
  answer : String
  timestamp : Int
deriving DecidableEq

/-- State of a ConversationMemory object. The two Python dicts are
modelled as total functions: a key absent from the defaultdict of
conversations reads as the empty list, and a key absent from timestamps
reads as none, matching how the code only ever observes them. Time values
are abstract integers ordered like datetimes, and ttl models the
timedelta built from ttl_hours in the same unit. -/
structure ConversationMemory where
  conversations : String → List Exchange
  timestamps : String → Option Int
  max_history : Nat
  ttl : Int

/-- A freshly constructed ConversationMemory. -/
def emptyMemory (m : Nat) (ttl : Int) : ConversationMemory :=
  ⟨fun _ => [], fun _ => none, m, ttl⟩

/-- Translation of ConversationMemory._get_session_key, including the
Python truthiness test that sends an empty session id to the default
key. -/
def _get_session_key (video_id : String) (session_id : Option String) : String :=
  match session_id with
  | some s => if s = "" then video_id ++ ":default" else video_id ++ ":" ++ s
  | none => video_id ++ ":default"

/-- The expiry test of _cleanup_expired for one key: a recorded timestamp
strictly older than the ttl before now. -/
def expiredKey (mem : ConversationMemory) (now : Int) (k : String) : Bool :=
  match mem.timestamps k with
  | some t => decide (now - t > mem.ttl)
  | none => false

/-- Translation of ConversationMemory._cleanup_expired: delete every
record whose timestamp is strictly older than the ttl. Deletion of a key
makes conversations read the empty list and timestamps read none. -/
def _cleanup_expired (mem : ConversationMemory) (now : Int) : ConversationMemory :=
  { mem with
    conversations := fun k => if expiredKey mem now k then [] else mem.conversations k,
    timestamps := fun k => if expiredKey mem now k then none else mem.timestamps k }

/-- Models the Python slice l[-m:] as used under the length guard of
add_exchange. Python evaluates l[-0:] to the whole list, hence the inner
test. -/
def pySliceLast {α : Type} (m : Nat) (l : List α) : List α :=
  if l.length > m then (if m = 0 then l else l.drop (l.length - m)) else l

/-- Translation of ConversationMemory.add_exchange: sweep expired records,
append the new exchange under the session key, trim to the last
max_history entries when the list got longer than that, and update the
timestamp of the key. -/
def add_exchange (mem : ConversationMemory) (now : Int) (video_id question answer : String)
    (session_id : Option String) : ConversationMemory :=
  let mem1 := _cleanup_expired mem now
  let key := _get_session_key video_id session_id
  let appended := mem1.conversations key ++ [⟨question, answer, now⟩]
  let trimmed := pySliceLast mem1.max_history appended
  { mem1 with
    conversations := fun k => if k = key then trimmed else mem1.conversations k,
    timestamps := fun k => if k = key then some now else mem1.timestamps k }

/-- Translation of ConversationMemory.get_history: sweep expired records,
read the list under the session key, and apply the Python truthiness test
on limit, slicing to the last limit entries when limit is a nonzero
number. -/
def get_history (mem : ConversationMemory) (now : Int) (video_id : String)
    (session_id : Option String) (limit : Option Nat) : List Exchange :=
  let mem1 := _cleanup_expired mem now
  let history := mem1.conversations (_get_session_key video_id session_id)
  match limit with
  | some n => if n = 0 then history else history.drop (history.length - n)
  | none => history

/-- Translation of ConversationMemory.clear_history: delete the record
under the session key from both dicts. -/
def clear_history (mem : ConversationMemory) (video_id : String)
    (session_id : Option String) : ConversationMemory :=
  let key := _get_session_key video_id session_id
  { mem with
    conversations := fun k => if k = key then [] else mem.conversations k,
    timestamps := fun k => if k = key then none else mem.timestamps k }

/-- The exchange built by add_exchange from a question and answer pair at
a given time. -/
def toExchange (now : Int) (p : String × String) : Exchange := ⟨p.1, p.2, now⟩

/-- Iterated add_exchange calls for one key at one time, in list order. -/
def addAll (mem : ConversationMemory) (now : Int) (vid : String) (sid : Option String)
    (xs : List (String × String)) : ConversationMemory :=
  xs.foldl (fun m p => add_exchange m now vid p.1 p.2 sid) mem

/-- The last m elements of a list. -/
def lastN {α : Type} (m : Nat) (l : List α) : List α := l.drop (l.length - m)

/-- The memory used in the key-collision scenario of claim C10. -/
def c10mem : ConversationMemory :=
  add_exchange (emptyMemory 10 24) 0 "a:b" "q" "ans" (some "c")

/-- The memory used in the expiry scenario witnessing claim C6: one
exchange stored at time 0 in a store with a ttl of 24. -/
def c6memW : ConversationMemory := add_exchange (emptyMemory 10 24) 0 "v" "q0" "a0" none

/-- Invariant describing a store reached by add_exchange calls all issued
at one time now: configuration fields are fixed, every timestamp is
either absent or now, and the list under the given key is known. -/
def MemInv (m : Nat) (ttl now : Int) (key : String) (l : List Exchange)
    (st : ConversationMemory) : Prop :=
  st.max_history = m ∧ st.ttl = ttl ∧
    (∀ k, st.timestamps k = none ∨ st.timestamps k = some now) ∧
    st.conversations key = l


/- ===== helper lemmas ===== -/

theorem lastN_small {α : Type} {m : Nat} {l : List α} (h : l.length ≤ m) : lastN m l = l := by
  simp [lastN, Nat.sub_eq_zero_of_le h]

theorem lastN_zero {α : Type} (l : List α) : lastN 0 l = [] := by
  simp [lastN]

theorem lastN_append_one {α : Type} (m : Nat) (l : List α) (x : α) :
    lastN m (lastN m l ++ [x]) = lastN m (l ++ [x]) := by
  rcases le_or_lt l.length m with h | h
  · rw [lastN_small h]
  · rcases m with _ | mm
    · rw [lastN_zero, lastN_zero]
    · have hv : (lastN (mm + 1) l).length = mm + 1 := by
        simp only [lastN, List.length_drop]
        omega
      show (lastN (mm + 1) l ++ [x]).drop ((lastN (mm + 1) l ++ [x]).length - (mm + 1))
          = (l ++ [x]).drop ((l ++ [x]).length - (mm + 1))
      rw [List.length_append, hv, List.length_append]
      have h1 : mm + 1 + [x].length - (mm + 1) = 1 := by simp
      have h2 : l.length + [x].length - (mm + 1) = l.length - mm := by simp
      rw [h1, h2]
      rw [List.drop_append_of_le_length (by omega : 1 ≤ (lastN (mm + 1) l).length)]
      rw [List.drop_append_of_le_length (by omega : l.length - mm ≤ l.length)]
      show (l.drop (l.length - (mm + 1))).drop 1 ++ [x] = l.drop (l.length - mm) ++ [x]
      rw [List.drop_drop]
      congr 2
      omega

theorem pySliceLast_eq {α : Type} {m : Nat} (hm : 1 ≤ m) (l : List α) :
    pySliceLast m l = lastN m l := by
  unfold pySliceLast lastN
  split
  · rw [if_neg (by omega)]
  · rw [Nat.sub_eq_zero_of_le (by omega), List.drop_zero]

theorem pySliceLast_singleton {α : Type} (m : Nat) (x : α) :
    pySliceLast m [x] = [x] := by
  unfold pySliceLast
  rcases Nat.eq_zero_or_pos m with hm | hm
  · subst hm; simp
  · have hlt : ¬([x].length > m) := by simp; omega
    rw [if_neg hlt]

theorem expired_false_of_inv {m : Nat} {ttl now : Int} {key : String} {l : List Exchange}
    {st : ConversationMemory} (h : MemInv m ttl now key l st) (httl : 0 ≤ ttl) (k : String) :
    expiredKey st now k = false := by
  obtain ⟨h1, h2, h3, h4⟩ := h
  rcases h3 k with hk | hk <;> simp [expiredKey, hk, h2]
  omega

theorem add_exchange_inv {m : Nat} {ttl now : Int} {vid : String} {sid : Option String}
    {q a : String} {st : ConversationMemory} {l : List Exchange}
    (hm : 1 ≤ m) (httl : 0 ≤ ttl)
    (h : MemInv m ttl now (_get_session_key vid sid) l st) :
    MemInv m ttl now (_get_session_key vid sid) (lastN m (l ++ [⟨q, a, now⟩]))
      (add_exchange st now vid q a sid) := by
  have he := expired_false_of_inv h httl
  obtain ⟨h1, h2, h3, h4⟩ := h
  refine ⟨by simp [add_exchange, _cleanup_expired, h1],
          by simp [add_exchange, _cleanup_expired, h2], ?_, ?_⟩
  · intro k
    by_cases hk : k = _get_session_key vid sid
    · right; simp [add_exchange, hk]
    · simpa [add_exchange, _cleanup_expired, hk, he k] using h3 k
  · simp [add_exchange, _cleanup_expired, he, h4, h1, pySliceLast_eq hm]

theorem addAll_inv {m : Nat} {ttl now : Int} {vid : String} {sid : Option String}
    (hm : 1 ≤ m) (httl : 0 ≤ ttl) :
    ∀ (xs : List (String × String)) (st : ConversationMemory) (acc : List Exchange),
      MemInv m ttl now (_get_session_key vid sid) (lastN m acc) st →
      MemInv m ttl now (_get_session_key vid sid)
        (lastN m (acc ++ xs.map (toExchange now))) (addAll st now vid sid xs) := by
  intro xs
  induction xs with
  | nil => intro st acc h; simpa [addAll] using h
  | cons x xs ih =>
    intro st acc h
    have h2 := add_exchange_inv (q := x.1) (a := x.2) hm httl h
    rw [lastN_append_one] at h2
    have h3 := ih (add_exchange st now vid x.1 x.2 sid) (acc ++ [⟨x.1, x.2, now⟩]) h2
    simpa [addAll, toExchange, List.append_assoc] using h3

/- ===== claim theorems for the conversation store ===== -/

/-- Claim C5: after max_history plus k insertions at one key with no
intervening expiry, get_history returns exactly the last max_history
insertions in order, the oldest retained being the insertion after the
first k; and after every add_exchange along the way the stored list has
at most max_history entries. Stated for any max_history of at least one;
the repository instantiates it at 10. -/
theorem c5_theorem (m k : Nat) (ttl now : Int) (vid : String) (sid : Option String)
    (xs : List (String × String)) (hm : 1 ≤ m) (httl : 0 ≤ ttl) (hk : 1 ≤ k)
    (hlen : xs.length = m + k) :
    get_history (addAll (emptyMemory m ttl) now vid sid xs) now vid sid none
        = (xs.map (toExchange now)).drop k
    ∧ (get_history (addAll (emptyMemory m ttl) now vid sid xs) now vid sid none).length = m
    ∧ ((List.range (xs.length + 1)).map (fun n => xs.take n)).all
        (fun pre => decide (((addAll (emptyMemory m ttl) now vid sid pre).conversations
          (_get_session_key vid sid)).length ≤ m)) = true := by
  have hbase : MemInv m ttl now (_get_session_key vid sid) (lastN m []) (emptyMemory m ttl) := by
    exact ⟨rfl, rfl, fun _ => Or.inl rfl, by simp [emptyMemory, lastN]⟩
  have hfin := addAll_inv hm httl xs (emptyMemory m ttl) [] hbase
  have he := expired_false_of_inv hfin httl
  obtain ⟨h1, h2, h3, h4⟩ := hfin
  have hgh : get_history (addAll (emptyMemory m ttl) now vid sid xs) now vid sid none
      = lastN m ([] ++ xs.map (toExchange now)) := by
    simp only [get_history, _cleanup_expired]
    simp [he, h4]
  have hdrop : lastN m ([] ++ xs.map (toExchange now)) = (xs.map (toExchange now)).drop k := by
    simp only [List.nil_append, lastN, List.length_map, hlen]
    congr 1
    omega
  refine ⟨hgh.trans hdrop, ?_, ?_⟩
  · rw [hgh, hdrop]
    simp [hlen]
  · rw [List.all_eq_true]
    intro pre hpre
    simp only [List.mem_map, List.mem_range] at hpre
    obtain ⟨n, hn, rfl⟩ := hpre
    have h5 := addAll_inv hm httl (xs.take n) (emptyMemory m ttl) [] hbase
    rw [decide_eq_true_eq, h5.2.2.2]
    simp only [lastN, List.length_drop]
    omega

/-- Witness for claim C5 at max_history one, two insertions. -/
theorem c5_witness :
    1 ≤ (1 : Nat)
    ∧ get_history (addAll (emptyMemory 1 0) 0 "v" none [("q1", "a1"), ("q2", "a2")])
        0 "v" none none = ([("q1", "a1"), ("q2", "a2")].map (toExchange 0)).drop 1 :=
  ⟨by decide,
   (c5_theorem 1 1 0 0 "v" none [("q1", "a1"), ("q2", "a2")]
     (by decide) (by decide) (by decide) (by decide)).1⟩

/-- Claim C6: a record whose timestamp is strictly older than the ttl
before now is removed by the sweep at the start of the next get_history
or add_exchange call, whichever key that call addresses: the read sees
nothing, an add under another key leaves the expired record deleted, and
an add under the same key starts again from a single fresh exchange. -/
theorem c6_theorem (mem : ConversationMemory) (now t : Int) (vid vid2 : String)
    (sid sid2 : Option String) (limit : Option Nat) (q a : String)
    (h1 : mem.timestamps (_get_session_key vid sid) = some t)
    (h2 : now - t > mem.ttl)
    (h3 : _get_session_key vid2 sid2 ≠ _get_session_key vid sid) :
    get_history mem now vid sid limit = []
    ∧ (add_exchange mem now vid2 q a sid2).conversations (_get_session_key vid sid) = []
    ∧ (add_exchange mem now vid2 q a sid2).timestamps (_get_session_key vid sid) = none
    ∧ (add_exchange mem now vid q a sid).conversations (_get_session_key vid sid)
        = [⟨q, a, now⟩] := by
  have he : expiredKey mem now (_get_session_key vid sid) = true := by
    simp [expiredKey, h1]
    exact h2
  refine ⟨?_, ?_, ?_, ?_⟩
  · cases limit <;> simp [get_history, _cleanup_expired, he]
  · simp [add_exchange, _cleanup_expired, he, Ne.symm h3]
  · simp [add_exchange, _cleanup_expired, he, Ne.symm h3]
  · simp [add_exchange, _cleanup_expired, he, pySliceLast_singleton]

/-- Witness for claim C6: a record written at time 0 with ttl 24 is gone
at time 25. -/
theorem c6_witness :
    get_history c6memW 25 "v" none none = []
    ∧ (add_exchange c6memW 25 "w" "q" "a" none).conversations (_get_session_key "v" none) = []
    ∧ (add_exchange c6memW 25 "w" "q" "a" none).timestamps (_get_session_key "v" none) = none
    ∧ (add_exchange c6memW 25 "v" "q" "a" none).conversations (_get_session_key "v" none)
        = [⟨"q", "a", 25⟩] :=
  c6_theorem c6memW 25 0 "v" "w" none none none "q" "a" (by decide) (by decide) (by decide)

/-- Claim C7: every one of the five caption formats parses the empty
string to the empty string. The parsing routines of the embedding are
total functions, matching the claim that parsing never raises. -/
theorem c7_theorem :
    parseBy "srv3" "" = "" ∧ parseBy "srv1" "" = "" ∧ parseBy "srv2" "" = ""
    ∧ parseBy "vtt" "" = "" ∧ parseBy "ttml" "" = "" := by decide

/-- Claim C9: omitting the session id and passing an explicit None
coincide in the embedding, both being the absent option, and both derive
the default session key from the video id; an empty session id string
lands on the same key through the Python truthiness test. -/
theorem c9_theorem (mem : ConversationMemory) (now : Int) (vid : String) (limit : Option Nat) :
    get_history mem now vid none limit = get_history mem now vid (some "") limit
    ∧ _get_session_key vid none = vid ++ ":default"
    ∧ _get_session_key vid none = _get_session_key vid (some "") := by
  refine ⟨?_, rfl, rfl⟩
  simp [get_history, _get_session_key]

/-- Claim C10: the session-key derivation is plain concatenation and is
not injective: the distinct pairs of video id a colon b with session c,
and video id a with session b colon c, share one key, so an exchange
added under the first is visible to get_history and removable by
clear_history under the second. -/
theorem c10_theorem :
    _get_session_key "a:b" (some "c") = _get_session_key "a" (some "b:c")
    ∧ (("a:b", "c") : String × String) ≠ ("a", "b:c")
    ∧ get_history c10mem 0 "a" (some "b:c") none = [⟨"q", "ans", 0⟩]
    ∧ (clear_history c10mem "a" (some "b:c")).conversations
        (_get_session_key "a:b" (some "c")) = [] := by
  refine ⟨by decide, by decide, by decide, by decide⟩

/- ===== lemmas about the fetch loops ===== -/

theorem consA_attemptsList (p : String × Option String) (out : LoopOut) :
    (LoopOut.consA p out).attemptsList = p :: out.attemptsList := by
  cases out <;> rfl

theorem consA_found {p : String × Option String} {out : LoopOut} {t : String}
    {as : List (String × Option String)}
    (h : LoopOut.consA p out = LoopOut.found t as) :
    ∃ as0, out = LoopOut.found t as0 := by
  cases out with
  | found t0 as0 =>
    simp only [LoopOut.consA, LoopOut.found.injEq] at h
    exact ⟨as0, by rw [h.1]⟩
  | through tt le as0 => simp [LoopOut.consA] at h

theorem runLangLoop_found_strip (ep : Endpoint) :
    ∀ (ps : List (String × Option String)) (tt le : Option String) (t : String)
      (as : List (String × Option String)),
      runLangLoop ep ps tt le = .found t as → t ≠ "" ∧ pyStripS t ≠ "" := by
  intro ps
  induction ps with
  | nil => intro tt le t as h; simp [runLangLoop] at h
  | cons p rest ih =>
    intro tt le t as h
    obtain ⟨fmt, lang⟩ := p
    rw [runLangLoop] at h
    rcases hep : ep lang fmt with ⟨status, body⟩ | msg <;> simp only [hep] at h
    · by_cases h1 : status = 200 ∧ body ≠ "" ∧ pyStripS body ≠ ""
      · rw [if_pos h1] at h
        by_cases h2 : parseBy fmt body ≠ "" ∧ pyStripS (parseBy fmt body) ≠ ""
        · rw [if_pos h2] at h
          obtain ⟨as0, h3⟩ := consA_found h
          injection h3 with hta _
          exact ⟨hta ▸ h2.1, hta ▸ h2.2⟩
        · rw [if_neg h2] at h
          obtain ⟨as0, h3⟩ := consA_found h
          exact ih _ _ _ _ h3
      · rw [if_neg h1] at h
        obtain ⟨as0, h3⟩ := consA_found h
        exact ih _ _ _ _ h3
    · obtain ⟨as0, h3⟩ := consA_found h
      exact ih _ _ _ _ h3

theorem runAutoLoop_found_strip (ep : Endpoint) :
    ∀ (ps : List (String × Option String)) (tt le : Option String) (t : String)
      (as : List (String × Option String)),
      runAutoLoop ep ps tt le = .found t as → t ≠ "" ∧ pyStripS t ≠ "" := by
  intro ps
  induction ps with
  | nil => intro tt le t as h; simp [runAutoLoop] at h
  | cons p rest ih =>
    intro tt le t as h
    obtain ⟨fmt, lang⟩ := p
    rw [runAutoLoop] at h
    rcases hep : ep lang fmt with ⟨status, body⟩ | msg <;> simp only [hep] at h
    · by_cases h1 : status = 200 ∧ body ≠ ""
      · rw [if_pos h1] at h
        by_cases h2 : parseBy fmt body ≠ "" ∧ pyStripS (parseBy fmt body) ≠ ""
        · rw [if_pos h2] at h
          obtain ⟨as0, h3⟩ := consA_found h
          injection h3 with hta _
          exact ⟨hta ▸ h2.1, hta ▸ h2.2⟩
        · rw [if_neg h2] at h
          obtain ⟨as0, h3⟩ := consA_found h
          exact ih _ _ _ _ h3
      · rw [if_neg h1] at h
        obtain ⟨as0, h3⟩ := consA_found h
        exact ih _ _ _ _ h3
    · obtain ⟨as0, h3⟩ := consA_found h
      exact ih _ _ _ _ h3

theorem finalizeResult_wf (tt le : Option String) (as : List (String × Option String)) :
    resultWellFormed (finalizeResult tt le as) := by
  cases tt with
  | none => simp [resultWellFormed, finalizeResult]
  | some s =>
    by_cases hs : s = "" ∨ pyStripS s = ""
    · simp [resultWellFormed, finalizeResult, hs]
    · push_neg at hs
      simp [resultWellFormed, finalizeResult, hs.1, hs.2]

theorem finalizeResult_attempts (tt le : Option String) (as : List (String × Option String)) :
    (finalizeResult tt le as).attempts = as := by
  cases tt with
  | none => rfl
  | some s => by_cases hs : s = "" ∨ pyStripS s = "" <;> simp [finalizeResult, hs]

theorem runLangLoop_attempts_le (ep : Endpoint) :
    ∀ (ps : List (String × Option String)) (tt le : Option String),
      (runLangLoop ep ps tt le).attemptsList.length ≤ ps.length := by
  intro ps
  induction ps with
  | nil => intro tt le; simp [runLangLoop, LoopOut.attemptsList]
  | cons p rest ih =>
    intro tt le
    obtain ⟨fmt, lang⟩ := p
    rw [runLangLoop]
    rcases hep : ep lang fmt with ⟨status, body⟩ | msg <;> simp only [hep]
    · by_cases h1 : status = 200 ∧ body ≠ "" ∧ pyStripS body ≠ ""
      · rw [if_pos h1]
        by_cases h2 : parseBy fmt body ≠ "" ∧ pyStripS (parseBy fmt body) ≠ ""
        · rw [if_pos h2, consA_attemptsList]
          simp [LoopOut.attemptsList]
        · rw [if_neg h2, consA_attemptsList]
          simpa using Nat.succ_le_succ (ih _ _)
      · rw [if_neg h1, consA_attemptsList]
        simpa using Nat.succ_le_succ (ih _ _)
    · rw [consA_attemptsList]
      simpa using Nat.succ_le_succ (ih _ _)

theorem runAutoLoop_attempts_le (ep : Endpoint) :
    ∀ (ps : List (String × Option String)) (tt le : Option String),
      (runAutoLoop ep ps tt le).attemptsList.length ≤ ps.length := by
  intro ps
  induction ps with
  | nil => intro tt le; simp [runAutoLoop, LoopOut.attemptsList]
  | cons p rest ih =>
    intro tt le
    obtain ⟨fmt, lang⟩ := p
    rw [runAutoLoop]
    rcases hep : ep lang fmt with ⟨status, body⟩ | msg <;> simp only [hep]
    · by_cases h1 : status = 200 ∧ body ≠ ""
      · rw [if_pos h1]
        by_cases h2 : parseBy fmt body ≠ "" ∧ pyStripS (parseBy fmt body) ≠ ""
        · rw [if_pos h2, consA_attemptsList]
          simp [LoopOut.attemptsList]
        · rw [if_neg h2, consA_attemptsList]
          simpa using Nat.succ_le_succ (ih _ _)
      · rw [if_neg h1, consA_attemptsList]
        simpa using Nat.succ_le_succ (ih _ _)
    · rw [consA_attemptsList]
      simpa using Nat.succ_le_succ (ih _ _)

theorem get_transcriptT_core_wf (ep : Endpoint) (ps : List (String × Option String)) :
    resultWellFormed (match runLangLoop ep ps none none with
      | .found t as => ⟨true, some t, none, as⟩
      | .through tt le as =>
        if ttFalsy tt then
          match runAutoLoop ep autoFmtPairs tt le with
          | .found t as2 => ⟨true, some t, none, as ++ as2⟩
          | .through tt2 le2 as2 => finalizeResult tt2 le2 (as ++ as2)
        else finalizeResult tt le as) := by
  cases hml : runLangLoop ep ps none none with
  | found t as =>
    have hs := runLangLoop_found_strip ep ps none none t as hml
    simp [resultWellFormed]
    exact hs.1
  | through tt le as =>
    dsimp only
    by_cases htt : ttFalsy tt = true
    · rw [if_pos htt]
      cases hma : runAutoLoop ep autoFmtPairs tt le with
      | found t2 as2 =>
        have hs := runAutoLoop_found_strip ep autoFmtPairs tt le t2 as2 hma
        simp [resultWellFormed]
        exact hs.1
      | through tt2 le2 as2 => exact finalizeResult_wf _ _ _
    · rw [if_neg htt]
      exact finalizeResult_wf _ _ _

/- ===== claim theorems for the caption fetcher ===== -/

/-- Claim C8: on every return path of get_transcript, a successful result
carries a nonempty transcript and no error, and a failed result carries
no transcript and an error message. -/
theorem c8_theorem (run : FetchRun) (languages : Option (List String)) :
    resultWellFormed (get_transcriptFull run languages) := by
  cases run with
  | outerTimeout => simp [get_transcriptFull, resultWellFormed]
  | outerError m => simp [get_transcriptFull, resultWellFormed]
  | normal ep =>
    cases languages with
    | none => exact get_transcriptT_core_wf ep (langFmtPairs defaultLanguages)
    | some ls => exact get_transcriptT_core_wf ep (langFmtPairs ls)

/-- Claim C1 counterexample: against an endpoint answering 429 to every
request, get_transcript does not stop at the first attempt: it issues all
twenty requests, and its failure carries the generic no-captions message
rather than any rate-limit marker. -/
theorem c1_counterexample :
    (get_transcriptT ep429 none).attempts.length = 20
    ∧ (get_transcriptT ep429 none).success = false
    ∧ (get_transcriptT ep429 none).error
        = some "No captions available for this video. Response was empty or could not be parsed."
    ∧ (get_transcriptT ep429 none).attempts.length ≠ 1 := by
  refine ⟨by decide, by decide, by decide, by decide⟩

/-- Claim C1 amended: get_transcript gives a 429 response no special
treatment; whatever bodies such responses carry, it continues through
every remaining language and format attempt and the auto-detect attempts,
ending in the generic no-captions failure after all twenty requests. -/
theorem c1_theorem (b : Option String → String → String) :
    get_transcriptT (fun lang fmt => .ok 429 (b lang fmt)) none
      = ⟨false, none,
          some "No captions available for this video. Response was empty or could not be parsed.",
          langFmtPairs defaultLanguages ++ autoFmtPairs⟩
    ∧ (langFmtPairs defaultLanguages ++ autoFmtPairs).length = 20 :=
  ⟨rfl, rfl⟩

/-- Claim C2 counterexample: with every attempt answered 404, the fetch
issues twenty endpoint requests, not at most four. -/
theorem c2_counterexample :
    (get_transcriptT ep404 none).attempts.length = 20
    ∧ ¬((get_transcriptT ep404 none).attempts.length ≤ 4) := by
  refine ⟨by decide, by decide⟩

/-- Claim C2 amended: get_transcript iterates all five formats over the
languages in format-major order and then all five auto-detect attempts,
so with the default three languages a fetch issues at most twenty
endpoint requests; a 200 response with a well-formed srv3 body for the
second language after a failed first language still returns success with
the parsed text at attempt count two. -/
theorem c2_theorem :
    (∀ ep : Endpoint, (get_transcriptT ep none).attempts.length ≤ 20)
    ∧ get_transcriptT epSecondLang none
        = ⟨true, some "Hello world", none, [("srv3", some "en"), ("srv3", some "en-US")]⟩ := by
  constructor
  · intro ep
    have h1 := runLangLoop_attempts_le ep (langFmtPairs defaultLanguages) none none
    have h15 : (langFmtPairs defaultLanguages).length = 15 := by decide
    rw [h15] at h1
    simp only [get_transcriptT]
    cases hml : runLangLoop ep (langFmtPairs defaultLanguages) none none with
    | found t as =>
      rw [hml] at h1
      simp only [LoopOut.attemptsList] at h1
      dsimp only
      omega
    | through tt le as =>
      rw [hml] at h1
      simp only [LoopOut.attemptsList] at h1
      dsimp only
      by_cases htt : ttFalsy tt = true
      · rw [if_pos htt]
        have h2 := runAutoLoop_attempts_le ep autoFmtPairs tt le
        have h5 : autoFmtPairs.length = 5 := by decide
        rw [h5] at h2
        cases hma : runAutoLoop ep autoFmtPairs tt le with
        | found t2 as2 =>
          rw [hma] at h2
          simp only [LoopOut.attemptsList] at h2
          dsimp only
          simp only [List.length_append]
          omega
        | through tt2 le2 as2 =>
          rw [hma] at h2
          simp only [LoopOut.attemptsList] at h2
          dsimp only
          rw [finalizeResult_attempts]
          simp only [List.length_append]
          omega
      · rw [if_neg htt, finalizeResult_attempts]
        omega
  · decide

/- ===== lemmas about the XML caption routine ===== -/

theorem mem_pyStrip {c : Char} {l : List Char} (h : c ∈ pyStrip l) : c ∈ l := by
  unfold pyStrip at h
  rw [List.mem_reverse] at h
  have h2 : c ∈ (l.dropWhile pyWs).reverse := (List.dropWhile_sublist pyWs).subset h
  rw [List.mem_reverse] at h2
  exact (List.dropWhile_sublist pyWs).subset h2

theorem unescapeAux_of_no_amp : ∀ (fuel : Nat) (l : List Char), '&' ∉ l → unescapeAux fuel l = l := by
  intro fuel
  induction fuel with
  | zero => intro l _; rfl
  | succ fuel ih =>
    intro l h
    cases l with
    | nil => rfl
    | cons c cs =>
      have hc : c ≠ '&' := fun hh => h (hh ▸ List.mem_cons_self c cs)
      have hcs : '&' ∉ cs := fun hh => h (List.mem_cons_of_mem c hh)
      rw [unescapeAux, if_neg hc, ih cs hcs]

theorem unescapeL_of_no_amp {l : List Char} (h : '&' ∉ l) : unescapeL l = l :=
  unescapeAux_of_no_amp l.length l h

theorem mem_joinSp {c : Char} : ∀ {ps : List (List Char)},
    c ∈ joinSp ps → c = ' ' ∨ ∃ p, p ∈ ps ∧ c ∈ p := by
  intro ps
  induction ps with
  | nil => intro h; simp [joinSp] at h
  | cons p rest ih =>
    intro h
    cases rest with
    | nil =>
      right
      exact ⟨p, List.mem_cons_self _ _, by simpa [joinSp] using h⟩
    | cons q rest2 =>
      have he : joinSp (p :: q :: rest2) = p ++ ' ' :: joinSp (q :: rest2) := rfl
      rw [he, List.mem_append] at h
      rcases h with h | h
      · exact Or.inr ⟨p, List.mem_cons_self _ _, h⟩
      · rcases List.mem_cons.mp h with h | h
        · exact Or.inl h
        · rcases ih h with h | ⟨p2, hp2, hc2⟩
          · exact Or.inl h
          · exact Or.inr ⟨p2, List.mem_cons_of_mem _ hp2, hc2⟩

theorem joinSp_append : ∀ (A : List (List Char)), A ≠ [] → ∀ (B : List (List Char)), B ≠ [] →
    joinSp (A ++ B) = joinSp A ++ ' ' :: joinSp B := by
  intro A
  induction A with
  | nil => intro hA; cases hA rfl
  | cons a A ih =>
    intro _ B hB
    cases A with
    | nil =>
      cases B with
      | nil => cases hB rfl
      | cons b B2 => simp [joinSp]
    | cons a2 A2 =>
      have ih2 := ih (by simp) B hB
      simp only [List.cons_append] at ih2 ⊢
      have e1 : joinSp (a :: a2 :: (A2 ++ B)) = a ++ ' ' :: joinSp (a2 :: (A2 ++ B)) := rfl
      have e2 : joinSp (a :: a2 :: A2) = a ++ ' ' :: joinSp (a2 :: A2) := rfl
      rw [e1, e2, ih2]
      simp [List.append_assoc]

theorem not_mem_cleanFrags {c : Char} (hc : c = '<' ∨ c = '>' ∨ c = '&')
    {ms : List (List Char)} (hall : ms.all noMarkB = true)
    {p : List Char} (hp : p ∈ cleanFrags ms) : c ∉ p := by
  rw [List.all_eq_true] at hall
  unfold cleanFrags at hp
  rw [List.mem_map] at hp
  obtain ⟨f, hf, rfl⟩ := hp
  rw [List.mem_filter] at hf
  have hnm := hall f hf.1
  rw [noMarkB, decide_eq_true_eq] at hnm
  push_neg at hnm
  have hamp : '&' ∉ pyStrip f := fun hh => hnm.2.2 (mem_pyStrip hh)
  rw [unescapeL_of_no_amp hamp]
  intro hcm
  have hmf := mem_pyStrip hcm
  rcases hc with rfl | rfl | rfl
  · exact hnm.1 hmf
  · exact hnm.2.1 hmf
  · exact hnm.2.2 hmf

/- ===== claim theorems for the caption routines ===== -/

/-- Claim C3 counterexample: on an input holding both a text element and
a p element, the p body also contributes to the output, so the output is
not built from the text bodies alone. -/
theorem c3_counterexample :
    parseXml "<text>a</text><p>b</p>" = "a b"
    ∧ ("a b" : String) ≠ "a" := by
  refine ⟨by decide, by decide⟩

/-- Claim C3 amended: the XML routine runs both element patterns
unconditionally; whenever both the text bodies and the p bodies
contribute cleaned fragments, the output is the text fragments followed
by the p fragments, joined with single spaces, and the tag-stripping
fallback is not consulted. -/
theorem c3_theorem (s : String)
    (h1 : cleanFrags (findTexts s.data) ≠ [])
    (h2 : cleanFrags (findPs s.data) ≠ []) :
    parseXml s = ⟨joinSp (cleanFrags (findTexts s.data)) ++ ' ' ::
      joinSp (cleanFrags (findPs s.data))⟩ := by
  have hne : ¬((cleanFrags (findTexts s.data) ++ cleanFrags (findPs s.data)).isEmpty = true) := by
    cases hcc : cleanFrags (findTexts s.data) with
    | nil => exact absurd hcc h1
    | cons x xs => simp
  simp only [parseXml]
  rw [if_neg hne]
  exact congrArg String.mk (joinSp_append _ h1 _ h2)

/-- Witness for the amended claim C3 at the two-element input. -/
theorem c3_witness :
    cleanFrags (findTexts ("<text>a</text><p>b</p>" : String).data) ≠ []
    ∧ cleanFrags (findPs ("<text>a</text><p>b</p>" : String).data) ≠ []
    ∧ parseXml "<text>a</text><p>b</p>"
        = ⟨joinSp (cleanFrags (findTexts ("<text>a</text><p>b</p>" : String).data)) ++ ' ' ::
            joinSp (cleanFrags (findPs ("<text>a</text><p>b</p>" : String).data))⟩ :=
  ⟨by decide, by decide, c3_theorem "<text>a</text><p>b</p>" (by decide) (by decide)⟩

/-- Claim C4 counterexample: markup nested inside a text element body
survives into the XML output, and the vtt routine passes entity escapes
through untouched. -/
theorem c4_counterexample :
    parseXml "<text>a <i>b</i></text>" = "a <i>b</i>"
    ∧ containsSub ("<i>".data) (parseXml "<text>a <i>b</i></text>").data = true
    ∧ parseVtt "hello &amp; bye" = "hello &amp; bye"
    ∧ containsSub ("&amp;".data) (parseVtt "hello &amp; bye").data = true := by
  refine ⟨by decide, by decide, by decide, by decide⟩

/-- Claim C4 amended: the XML routine is clean only fragment-wise: when
every extracted element body is itself free of angle brackets and
ampersands and the cleaned fragments are nonempty, the output contains no
markup delimiter and no entity escape; bodies carrying nested markup or
escapes, and vtt lines, are passed through as they are. -/
theorem c4_theorem (s : String)
    (h1 : (findTexts s.data).all noMarkB = true)
    (h2 : (findPs s.data).all noMarkB = true)
    (h3 : cleanFrags (findTexts s.data) ++ cleanFrags (findPs s.data) ≠ []) :
    noMarkB (parseXml s).data = true := by
  have hne : ¬((cleanFrags (findTexts s.data) ++ cleanFrags (findPs s.data)).isEmpty = true) := by
    cases hcc : cleanFrags (findTexts s.data) ++ cleanFrags (findPs s.data) with
    | nil => exact absurd hcc h3
    | cons x xs => simp
  have hparse : parseXml s
      = ⟨joinSp (cleanFrags (findTexts s.data) ++ cleanFrags (findPs s.data))⟩ := by
    simp only [parseXml]
    rw [if_neg hne]
  rw [hparse, noMarkB, decide_eq_true_eq]
  rintro (hc | hc | hc)
  · rcases mem_joinSp hc with hsp | ⟨p, hp, hcp⟩
    · exact absurd hsp (by decide)
    · rcases List.mem_append.mp hp with hp2 | hp2
      · exact not_mem_cleanFrags (Or.inl rfl) h1 hp2 hcp
      · exact not_mem_cleanFrags (Or.inl rfl) h2 hp2 hcp
  · rcases mem_joinSp hc with hsp | ⟨p, hp, hcp⟩
    · exact absurd hsp (by decide)
    · rcases List.mem_append.mp hp with hp2 | hp2
      · exact not_mem_cleanFrags (Or.inr (Or.inl rfl)) h1 hp2 hcp
      · exact not_mem_cleanFrags (Or.inr (Or.inl rfl)) h2 hp2 hcp
  · rcases mem_joinSp hc with hsp | ⟨p, hp, hcp⟩
    · exact absurd hsp (by decide)
    · rcases List.mem_append.mp hp with hp2 | hp2
      · exact not_mem_cleanFrags (Or.inr (Or.inr rfl)) h1 hp2 hcp
      · exact not_mem_cleanFrags (Or.inr (Or.inr rfl)) h2 hp2 hcp

/-- Witness for the amended claim C4 at a clean one-element input. -/
theorem c4_witness :
    (findTexts ("<text>hi</text>" : String).data).all noMarkB = true
    ∧ (findPs ("<text>hi</text>" : String).data).all noMarkB = true
    ∧ cleanFrags (findTexts ("<text>hi</text>" : String).data)
        ++ cleanFrags (findPs ("<text>hi</text>" : String).data) ≠ []
    ∧ noMarkB (parseXml "<text>hi</text>").data = true :=
  ⟨by decide, by decide, by decide,
   c4_theorem "<text>hi</text>" (by decide) (by decide) (by decide)⟩
